import Mathlib

/-!
Verification of the fautil-scaffold repository core: the dependency-injection
module scanner (`src/core/setup.py`), the class-based-view registry and binder
(`src/core/cbv.py`), the request context store (`src/core/context.py`), and the
example user CRUD resource (`src/dao/impl/user.py`, `src/controller/user.py`).

Python dictionaries are modelled as insertion-ordered association lists; the
operations below mirror `d[k] = v`, `k in d`, `d.get(k)`, `d.update(e)` and the
scanner's guarded insertion `if k not in d: d[k] = v`.
-/

namespace Fautil

/-- Lookup in an insertion-ordered association list, as Python `d.get(k)`. -/
def dlookup [DecidableEq κ] (k : κ) : List (κ × α) → Option α
  | [] => none
  | p :: ps => if p.1 = k then some p.2 else dlookup k ps

/-- Membership test, as Python `k in d`. -/
def dcontains [DecidableEq κ] (k : κ) (d : List (κ × α)) : Bool :=
  (dlookup k d).isSome

/-- Guarded insertion `if k not in d: d[k] = v` used by `_scan_module`. -/
def dinsertIfAbsent [DecidableEq κ] (d : List (κ × α)) (k : κ) (v : α) : List (κ × α) :=
  if dcontains k d then d else d ++ [(k, v)]

/-- In-place value replacement at a key, keeping insertion positions. -/
def dreplace [DecidableEq κ] (d : List (κ × α)) (k : κ) (v : α) : List (κ × α) :=
  d.map (fun p => if p.1 = k then (k, v) else p)

/-- Assignment `d[k] = v`: replaces the value in place when the key is
present (keeping its insertion position, as CPython does), else appends. -/
def dset [DecidableEq κ] (d : List (κ × α)) (k : κ) (v : α) : List (κ × α) :=
  if dcontains k d then dreplace d k v else d ++ [(k, v)]

/-- Python `d.update(e)`: assign every pair of `e` into `d` in order. -/
def dupdate [DecidableEq κ] (d e : List (κ × α)) : List (κ × α) :=
  e.foldl (fun acc p => dset acc p.1 p.2) d

/-- A well-formed dictionary has no duplicate keys. -/
def NodupKeys [DecidableEq κ] (d : List (κ × α)) : Prop :=
  (d.map Prod.fst).Nodup

instance [DecidableEq κ] (d : List (κ × α)) : Decidable (NodupKeys d) :=
  List.nodupDecidable (d.map Prod.fst)

theorem dlookup_append [DecidableEq κ] (k : κ) (d e : List (κ × α)) :
    dlookup k (d ++ e) = ((dlookup k d).elim (dlookup k e) some) := by
  induction d with
  | nil => simp [dlookup]
  | cons p ps ih =>
    by_cases h : p.1 = k <;> simp [dlookup, h, ih]

theorem dlookup_eq_none_of_not_mem [DecidableEq κ] (k : κ) (d : List (κ × α)) :
    k ∉ d.map Prod.fst → dlookup k d = none := by
  induction d with
  | nil => intro _; rfl
  | cons p ps ih =>
    intro h
    simp only [List.map_cons, List.mem_cons] at h
    push_neg at h
    unfold dlookup
    rw [if_neg (fun he => h.1 he.symm)]
    exact ih h.2

theorem not_mem_of_dlookup_eq_none [DecidableEq κ] (k : κ) (d : List (κ × α)) :
    dlookup k d = none → k ∉ d.map Prod.fst := by
  induction d with
  | nil => intro _ h; simp at h
  | cons p ps ih =>
    intro h hm
    unfold dlookup at h
    by_cases he : p.1 = k
    · rw [if_pos he] at h; exact Option.noConfusion h
    · rw [if_neg he] at h
      simp only [List.map_cons, List.mem_cons] at hm
      cases hm with
      | inl hx => exact he hx.symm
      | inr hx => exact ih h hx

theorem dlookup_of_dcontains_false [DecidableEq κ] (k : κ) (d : List (κ × α)) :
    dcontains k d = false → dlookup k d = none := by
  intro h
  unfold dcontains at h
  cases hl : dlookup k d with
  | none => rfl
  | some v => rw [hl] at h; simp at h

theorem dlookup_dreplace [DecidableEq κ] (d : List (κ × α)) (k k2 : κ) (v : α) :
    dlookup k2 (dreplace d k v) =
      if k = k2 then (dlookup k d).map (fun _ => v) else dlookup k2 d := by
  induction d with
  | nil => by_cases h : k = k2 <;> simp [dreplace, dlookup, h]
  | cons p ps ih =>
    simp only [dreplace, List.map_cons] at ih ⊢
    by_cases h2 : k = k2
    · subst h2
      by_cases hp : p.1 = k <;> simp [dlookup, hp, ih]
    · have h2s : ¬ k2 = k := fun h => h2 h.symm
      by_cases hp : p.1 = k
      · simp [dlookup, hp, h2, ih]
      · by_cases h3 : p.1 = k2 <;> simp [dlookup, hp, h2, h2s, h3, ih]

theorem dlookup_dset [DecidableEq κ] (d : List (κ × α)) (k k2 : κ) (v : α) :
    dlookup k2 (dset d k v) = if k = k2 then some v else dlookup k2 d := by
  unfold dset
  by_cases hc : dcontains k d = true
  · rw [if_pos hc, dlookup_dreplace]
    by_cases h2 : k = k2
    · subst h2
      rw [if_pos rfl, if_pos rfl]
      unfold dcontains at hc
      cases h : dlookup k d with
      | none => rw [h] at hc; simp at hc
      | some w => simp
    · rw [if_neg h2, if_neg h2]
  · have hf : dcontains k d = false := by
      cases hb : dcontains k d with
      | false => rfl
      | true => exact absurd hb hc
    rw [if_neg hc, dlookup_append]
    have hnone : dlookup k d = none := dlookup_of_dcontains_false k d hf
    by_cases h2 : k = k2
    · subst h2
      rw [hnone, if_pos rfl]
      simp [dlookup]
    · rw [if_neg h2]
      cases h : dlookup k2 d with
      | none => simp [dlookup, h2]
      | some w => simp

theorem keys_dreplace [DecidableEq κ] (d : List (κ × α)) (k : κ) (v : α) :
    (dreplace d k v).map Prod.fst = d.map Prod.fst := by
  unfold dreplace
  rw [List.map_map]
  apply List.map_congr_left
  intro p _
  by_cases h : p.1 = k <;> simp [h]

theorem keys_append_new [DecidableEq κ] (d : List (κ × α)) (k : κ) (v : α) :
    NodupKeys d → dcontains k d = false → NodupKeys (d ++ [(k, v)]) := by
  intro hd hc
  unfold NodupKeys at hd ⊢
  rw [List.map_append]
  simp only [List.map_cons, List.map_nil]
  rw [List.nodup_append]
  refine ⟨hd, List.nodup_singleton _, ?_⟩
  intro a ha hb
  simp only [List.mem_singleton] at hb
  subst hb
  exact (not_mem_of_dlookup_eq_none _ d (dlookup_of_dcontains_false _ d hc)) ha

theorem keys_dset [DecidableEq κ] (d : List (κ × α)) (k : κ) (v : α) :
    NodupKeys d → NodupKeys (dset d k v) := by
  intro hd
  unfold dset
  by_cases hc : dcontains k d = true
  · rw [if_pos hc]
    unfold NodupKeys at hd ⊢
    rw [keys_dreplace]
    exact hd
  · have hf : dcontains k d = false := by
      cases hb : dcontains k d with
      | false => rfl
      | true => exact absurd hb hc
    rw [if_neg hc]
    exact keys_append_new d k v hd hf

theorem keys_dinsertIfAbsent [DecidableEq κ] (d : List (κ × α)) (k : κ) (v : α) :
    NodupKeys d → NodupKeys (dinsertIfAbsent d k v) := by
  intro hd
  unfold dinsertIfAbsent
  by_cases hc : dcontains k d = true
  · rw [if_pos hc]
    exact hd
  · have hf : dcontains k d = false := by
      cases hb : dcontains k d with
      | false => rfl
      | true => exact absurd hb hc
    rw [if_neg hc]
    exact keys_append_new d k v hd hf

theorem keys_dupdate [DecidableEq κ] (d e : List (κ × α)) :
    NodupKeys d → NodupKeys (dupdate d e) := by
  induction e generalizing d with
  | nil => intro hd; simpa [dupdate]
  | cons p ps ih =>
    intro hd
    unfold dupdate
    simp only [List.foldl_cons]
    exact ih (dset d p.1 p.2) (keys_dset d p.1 p.2 hd)

theorem dlookup_dupdate [DecidableEq κ] (d e : List (κ × α)) (k : κ) :
    NodupKeys e →
    dlookup k (dupdate d e) = ((dlookup k e).elim (dlookup k d) some) := by
  induction e generalizing d with
  | nil => intro _; simp [dupdate, dlookup]
  | cons p ps ih =>
    intro he
    unfold NodupKeys at he
    simp only [List.map_cons, List.nodup_cons] at he
    obtain ⟨hp, hps⟩ := he
    unfold dupdate
    simp only [List.foldl_cons]
    have hrec := ih (dset d p.1 p.2) hps
    unfold dupdate at hrec
    rw [hrec]
    by_cases h : p.1 = k
    · subst h
      have : dlookup p.1 ps = none := dlookup_eq_none_of_not_mem p.1 ps hp
      simp [dlookup, this, dlookup_dset]
    · simp [dlookup, h, dlookup_dset]

/-!
Component scanner (`src/core/setup.py`, `_scan_module` / `_scan_package`).

Type tokens (classes, protocols, functions) are modelled as natural numbers. A
`Member` is one entry of `inspect.getmembers(module)`, in enumeration order
(`getmembers` sorts by attribute name); `_scan_module` keeps members that are
classes or functions and carry the `__setup__` attribute, and binds them under
`__setup__["protocol"]` when given, else under the object itself.

An import of a module either succeeds with its member list or raises.  The
exception class matters because `_scan_module` catches only `ImportError`
while `_scan_package` additionally catches `AttributeError`,
`FileNotFoundError`, `PermissionError` and `OSError`; anything else
propagates out of the scan.
-/

/-- One member of a scanned module, as seen by `inspect.getmembers`. -/
structure Member where
  name : String
  isClassOrFunction : Bool
  hasSetup : Bool
  protocol : Option Nat
  selfKey : Nat
deriving DecidableEq

/-- Outcome of `importlib.import_module` on one module, by exception class. -/
inductive ImportResult where
  | ok (members : List Member)
  | importError
  | scanCaught
  | uncaught
deriving DecidableEq

/-- Error still in flight during a scan, by which handler can catch it. -/
inductive PyErr where
  | scanCaught
  | uncaught
deriving DecidableEq

/-- The binding key of a decorated member: the protocol when one was given to
`@setup`, else the object itself. -/
def memberKey (m : Member) : Nat :=
  m.protocol.getD m.selfKey

/-- The guard of `_scan_module`'s loop: a class or function with `__setup__`. -/
def memberActive (m : Member) : Bool :=
  m.isClassOrFunction && m.hasSetup

/-- A scan result dictionary: binding key to implementation token. -/
abbrev ScanDict := List (Nat × Nat)

/-- The member loop of `_scan_module`: `if binding_type not in setup_objects:
setup_objects[binding_type] = obj`, folded over members in enumeration order. -/
def collectGo : List Member → ScanDict → ScanDict
  | [], acc => acc
  | m :: ms, acc =>
      collectGo ms (if memberActive m then dinsertIfAbsent acc (memberKey m) m.selfKey else acc)

/-- Dictionary built by `_scan_module` from a successfully imported module. -/
def collectMembers (ms : List Member) : ScanDict :=
  collectGo ms []

/-- The whole of `_scan_module`: import the module and collect decorated
members; `except ImportError` yields an empty result, other exceptions
propagate. -/
def scanModuleEx : ImportResult → Except PyErr ScanDict
  | .ok ms => .ok (collectMembers ms)
  | .importError => .ok []
  | .scanCaught => .error .scanCaught
  | .uncaught => .error .uncaught

mutual
/-- A package on disk: the outcome of importing the package itself, whether it
has a `__file__` (namespace packages do not, and then children are not
walked), and the entries of `package_path.iterdir()` in order. -/
inductive Pkg where
  | mk : ImportResult → Bool → List PkgItem → Pkg

/-- One entry of `iterdir()`: a `.py` module file, or a subdirectory holding an
`__init__.py` (a subpackage). -/
inductive PkgItem where
  | module : ImportResult → PkgItem
  | subpkg : Pkg → PkgItem
end

mutual
/-- The whole of `_scan_package`: import the package, scan its own module,
then walk `iterdir()`, merging with `setup_objects.update(...)`.  The `try`
block catches `ImportError` and the `AttributeError`/filesystem classes by
returning an empty dictionary (dropping everything already collected for
this package); any other exception propagates to the caller. -/
def scanPackageEx : Pkg → Except PyErr ScanDict
  | .mk (ImportResult.ok ms) hasFile items =>
      match scanItems (if hasFile then items else []) (collectMembers ms) with
      | .ok d => .ok d
      | .error .scanCaught => .ok []
      | .error .uncaught => .error .uncaught
  | .mk ImportResult.importError _ _ => .ok []
  | .mk ImportResult.scanCaught _ _ => .ok []
  | .mk ImportResult.uncaught _ _ => .error .uncaught
termination_by p => sizeOf p
decreasing_by cases hasFile <;> (simp; try omega)

/-- The `iterdir()` loop body of `_scan_package`: recurse into subpackages,
scan plain modules, and `update` the accumulator with each partial result. -/
def scanItems : List PkgItem → ScanDict → Except PyErr ScanDict
  | [], acc => .ok acc
  | .module m :: rest, acc =>
      match scanModuleEx m with
      | .ok d2 => scanItems rest (dupdate acc d2)
      | .error e => .error e
  | .subpkg p :: rest, acc =>
      match scanPackageEx p with
      | .ok d2 => scanItems rest (dupdate acc d2)
      | .error e => .error e
termination_by items _ => sizeOf items
decreasing_by all_goals simp <;> omega
end

/-!
Class-based views (`src/core/cbv.py`).

A `route(...)` decorator stores a `RouteInfo` on the decorated method
(`func._route_info = self`; `functools.wraps` copies it onto the wrapper).
Only the fields the claims touch are carried; the documentation-only fields
(`summary`, `description`, `responses`, ...) are omitted.  `tags` and
`dependencies` are as normalised by `route.__init__` (`tags or []`,
`dependencies or []`), so they are plain lists here.  Dependency tokens are
modelled as natural numbers, methods and paths as strings.
-/

/-- Metadata attached to a routed method by the `route` decorator. -/
structure RouteInfo where
  path : String
  tags : List String
  dependencies : List Nat
  methods : List String
  statusCode : Option Nat
deriving DecidableEq

/-- A function attribute of a view class body: its name and the
`_route_info` attached to it, if any. -/
structure FuncDef where
  name : String
  routeInfo : Option RouteInfo
deriving DecidableEq

/-- A view class: `APIView` itself, or a subclass with its resolved class
attributes (`path`, `tags`, `dependencies`, `router_kwargs`) and the
functions defined in its own body. -/
inductive ViewClass where
  | apiview : ViewClass
  | sub (parent : ViewClass) (path : String) (tags : List String)
      (dependencies : List Nat) (routerKwargs : List (String × String))
      (own : List FuncDef) : ViewClass

/-- Resolved `path` class attribute (default `""` on `APIView`). -/
def viewPath : ViewClass → String
  | .apiview => ""
  | .sub _ p _ _ _ _ => p

/-- Resolved `tags` class attribute (default `[]` on `APIView`). -/
def viewTags : ViewClass → List String
  | .apiview => []
  | .sub _ _ t _ _ _ => t

/-- Resolved `dependencies` class attribute (default `[]` on `APIView`). -/
def viewDeps : ViewClass → List Nat
  | .apiview => []
  | .sub _ _ _ d _ _ => d

/-- Resolved `router_kwargs` class attribute (default `{}` on `APIView`). -/
def viewRouterKwargs : ViewClass → List (String × String)
  | .apiview => []
  | .sub _ _ _ _ rk _ => rk

/-- Plain functions defined on `APIView` itself; none carries `_route_info`. -/
def apiviewFuncs : List FuncDef :=
  [⟨"register", none⟩, ⟨"_register_routes", none⟩]

/-- Functions visible on a class through the method resolution order: own
definitions shadow inherited ones of the same name. `inspect.getmembers(cls,
inspect.isfunction)` sees exactly these. -/
def visibleFuncs : ViewClass → List FuncDef
  | .apiview => apiviewFuncs
  | .sub parent _ _ _ _ own =>
      own ++ (visibleFuncs parent).filter (fun g => own.all (fun f => f.name != g.name))

/-- Lexicographic code-point comparison of character lists, the order
`sorted` uses on Python identifiers. -/
def charsLt : List Char → List Char → Bool
  | [], [] => false
  | [], _ :: _ => true
  | _ :: _, [] => false
  | c :: cs, e :: es =>
      if c.toNat < e.toNat then true
      else if e.toNat < c.toNat then false
      else charsLt cs es

/-- String comparison by code points. -/
def strLt (a b : String) : Bool :=
  charsLt a.data b.data

/-- Insertion step of a name-ordered sort. -/
def insertByName (f : FuncDef) : List FuncDef → List FuncDef
  | [] => [f]
  | g :: gs => if strLt f.name g.name then f :: g :: gs else g :: insertByName f gs

/-- Sorting by attribute name, as `inspect.getmembers` does. -/
def sortByName (l : List FuncDef) : List FuncDef :=
  l.foldr insertByName []

/-- A materialised row of `cls._routes`, as appended by
`APIView.__init_subclass__`. -/
structure Row where
  path : String
  tags : List String
  dependencies : List Nat
  methods : List String
  statusCode : Option Nat
  endpointName : String
deriving DecidableEq

/-- One row of `cls._routes`: `route_info.tags or cls.tags` for tags, and
`route_info.dependencies + cls.dependencies` for dependencies. -/
def mkRow (clsTags : List String) (clsDeps : List Nat) (fname : String) (ri : RouteInfo) : Row :=
  ⟨ri.path, if ri.tags = [] then clsTags else ri.tags,
    ri.dependencies ++ clsDeps, ri.methods, ri.statusCode, fname⟩

/-- The `cls._routes` table built by `APIView.__init_subclass__`: every
visible function carrying `_route_info`, in `getmembers` (name) order. -/
def routesOf : ViewClass → List Row
  | .apiview => []
  | .sub parent p t d rk own =>
      (sortByName (visibleFuncs (.sub parent p t d rk own))).filterMap
        (fun f => (f.routeInfo).map (mkRow t d f.name))

/-- A route as mounted on the application: full path, HTTP methods, and the
name of the bound endpoint. -/
abbrev MountedRoute := String × List String × String

/-- Model of `APIView.register`: `full_prefix = prefix + self.path`; the router is
created with that scope unless `router_kwargs` has more than one entry, in
which case `dict(prefix=full_prefix).update(router_kwargs)` lets a
`"prefix"` entry of `router_kwargs` replace it; every row of `cls._routes`
is then mounted under the router's scope (`include_router` concatenates the
router scope with each row's path). -/
def registerView (cls : ViewClass) (pre : String) : List MountedRoute :=
  let fullPre := pre ++ viewPath cls
  let rkw := viewRouterKwargs cls
  let effPre := if rkw.length > 1 then (dlookup "prefix" rkw).getD fullPre else fullPre
  (routesOf cls).map (fun r => (effPre ++ r.path, r.methods, r.endpointName))

/-!
Example user resource (`src/model/user.py`, `src/dao/impl/user.py`,
`src/controller/user.py`).  The service layer (`src/service/impl/user.py`)
delegates each call verbatim to the DAO, so the controller is modelled
directly over the DAO operations.
-/

/-- The pydantic `User` model: `id: int`, `name: str`. -/
structure User where
  id : Int
  name : String
deriving DecidableEq

/-- The seed data created by `UserDao.__init__`. -/
def initUsers : List User :=
  [⟨1, "John Doe"⟩, ⟨2, "Jane Doe"⟩, ⟨3, "Jim Doe"⟩, ⟨4, "Jill Doe"⟩,
   ⟨5, "Jack Doe"⟩, ⟨6, "Jill Doe"⟩, ⟨7, "Jack Doe"⟩, ⟨8, "Jill Doe"⟩,
   ⟨9, "Jack Doe"⟩, ⟨10, "Jill Doe"⟩]

/-- Python list subscription `l[i]` with negative-index wrap-around;
`none` models an `IndexError`. -/
def pyIndex (l : List User) (i : Int) : Option User :=
  if 0 ≤ i ∧ i < (l.length : Int) then l.get? i.toNat
  else if -(l.length : Int) ≤ i ∧ i < 0 then l.get? ((l.length : Int) + i).toNat
  else none

namespace UserDao

/-- Model of `UserDao.get_user`: positional lookup `self.users[user_id - 1]` guarded
only by `user_id > len(self.users)`.  `Except.error` models an uncaught
`IndexError`; `Except.ok none` is the `return None` branch. -/
def get_user (users : List User) (user_id : Int) : Except Unit (Option User) :=
  if user_id > (users.length : Int) then .ok none
  else
    match pyIndex users (user_id - 1) with
    | some u => .ok (some u)
    | none => .error ()

/-- Model of `UserDao.create_user`: the new user gets `id = len(self.users) + 1` and
is appended; returns the updated store and the created user. -/
def create_user (users : List User) (name : String) : List User × User :=
  let u : User := ⟨(users.length : Int) + 1, name⟩
  (users ++ [u], u)

/-- Mutation `found_user.name = user.name`: the first stored user with the
given id gets the new name. -/
def setNameFirst : List User → Int → String → List User
  | [], _, _ => []
  | u :: us, i, n => if u.id = i then ⟨u.id, n⟩ :: us else u :: setNameFirst us i n

/-- Model of `UserDao.update_user`: find the first user by id; when absent it RAISES
`ValueError("User not found")` (modelled as `Except.error`), it never
returns `None`. -/
def update_user (users : List User) (user_id : Int) (name : String) :
    Except String (List User × User) :=
  match users.find? (fun u => u.id == user_id) with
  | none => .error "User not found"
  | some u => .ok (setNameFirst users user_id name, ⟨u.id, name⟩)

/-- Model of `UserDao.delete_user`: keep every user whose id differs. -/
def delete_user (users : List User) (user_id : Int) : List User :=
  users.filter (fun u => u.id != user_id)

end UserDao

/-- Outcome of one HTTP request against the example resource: a success
response, an `HTTPException` carrying status and detail, or an exception
that no layer caught (which FastAPI surfaces as a server error, not as a
documented response). -/
inductive UserResp where
  | ok (status : Nat) (body : User)
  | httpError (status : Nat) (detail : String)
  | unhandled
deriving DecidableEq

namespace UserController

/-- Model of `UserController.get_user` (`GET /user/{user_id}` after mounting): 404
when the service returns `None`, 200 with the user otherwise; an
`IndexError` from the DAO is not caught anywhere. -/
def get_user (users : List User) (user_id : Int) : UserResp :=
  match UserDao.get_user users user_id with
  | .ok (some u) => .ok 200 u
  | .ok none => .httpError 404 "User not found"
  | .error _ => .unhandled

/-- Model of `UserController.update_user` (`PUT /user/{user_id}`): the controller
checks `if updated_user is None` to raise 404, but the DAO either returns a
user or raises `ValueError`, which no layer catches, so the `None` branch is
unreachable. Returns the response together with the resulting store. -/
def update_user (users : List User) (user_id : Int) (name : String) :
    UserResp × List User :=
  match UserDao.update_user users user_id name with
  | .ok (users2, u) => (.ok 200 u, users2)
  | .error _ => (.unhandled, users)

end UserController

/-!
Request context (`src/core/context.py`).  `RequestContext.set` copies the
stored dictionary, assigns into the copy and installs the copy;
`RequestContext.get_all` hands out a copy.  To make the aliasing claims
expressible, dictionaries live in a heap (a list of dictionary objects
indexed by allocation address) and the context variable holds the address of
the current storage dictionary.  Context values are modelled as tokens. -/

/-- A context storage dictionary object. -/
abbrev CtxDict := List (String × Nat)

/-- The heap of allocated context dictionaries and the address held by the
`_context_storage` context variable. -/
structure CtxState where
  heap : List CtxDict
  cur : Nat

/-- The dictionary object the context variable currently points to. -/
def currentDict (s : CtxState) : CtxDict :=
  s.heap.getD s.cur []

namespace RequestContext

/-- Model of `RequestContext.get`: `storage.get(key, default)` on the current
dictionary; `none` stands for the default. -/
def get (s : CtxState) (k : String) : Option Nat :=
  dlookup k (currentDict s)

/-- Model of `RequestContext.set`: `storage = _context_storage.get().copy();
storage[key] = value; _context_storage.set(storage)`.  The copy is a fresh
allocation; the previously current dictionary object is not touched. -/
def set (s : CtxState) (k : String) (v : Nat) : CtxState :=
  ⟨s.heap ++ [dset (currentDict s) k v], s.heap.length⟩

/-- Model of `RequestContext.get_all`: returns `_context_storage.get().copy()` — a
fresh dictionary object whose address differs from the stored one.  Yields
the state after the allocation and the address of the returned copy. -/
def get_all (s : CtxState) : CtxState × Nat :=
  (⟨s.heap ++ [currentDict s], s.cur⟩, s.heap.length)

end RequestContext

/-!
Introspection helper `get_all_bindings` (`src/core/setup.py`).  The global
`_registered_modules` keys are abstracted as a list of binding keys, and the
injector as a resolution function; `injector.get` either returns an instance
or raises, and only `KeyError`, `TypeError`, `ValueError` and
`AttributeError` are caught by the helper's `except` clause. -/

/-- Exception class raised by a failed `injector.get`, with `other` standing
for any class outside the caught tuple (such as the injector's own
`UnsatisfiedRequirement` or `CircularDependency` errors). -/
inductive ExcKind where
  | keyError
  | typeError
  | valueError
  | attributeError
  | other
deriving DecidableEq

/-- Outcome of `injector.get` on one binding key. -/
inductive Resolve where
  | ok (inst : Nat)
  | exc (kind : ExcKind)
deriving DecidableEq

/-- Whether `except (KeyError, TypeError, ValueError, AttributeError)`
catches the exception. -/
def caughtKind : ExcKind → Bool
  | .other => false
  | _ => true

/-- The loop of `get_all_bindings`: resolve each registered key, store
successes, log-and-skip caught failures, propagate anything else. -/
def getAllBindingsGo (resolve : Nat → Resolve) : List Nat → ScanDict → Except Unit ScanDict
  | [], acc => .ok acc
  | k :: ks, acc =>
      match resolve k with
      | .ok v => getAllBindingsGo resolve ks (dset acc k v)
      | .exc kind =>
          if caughtKind kind then getAllBindingsGo resolve ks acc else .error ()

/-- Model of `get_all_bindings(injector)` over the registered binding keys. -/
def get_all_bindings (registry : List Nat) (resolve : Nat → Resolve) : Except Unit ScanDict :=
  getAllBindingsGo resolve registry []

/-- The instance a resolution yields, when it succeeds. -/
def resOk : Resolve → Option Nat
  | .ok v => some v
  | .exc _ => none

/-- Whether a resolution outcome is survivable for `get_all_bindings`:
success, or a failure whose class the `except` clause catches. -/
def caughtFail : Resolve → Bool
  | .ok _ => true
  | .exc kind => caughtKind kind

/-!
Concrete fixtures used by the counterexamples and witnesses below.
-/

/-- Maximum id among the stored users (0 for an empty store). -/
def storeMax (users : List User) : Int :=
  users.foldl (fun m u => max m u.id) 0

/-- The id sequence `1, 2, ..., n`. -/
def seqIds : Nat → List Int
  | 0 => []
  | n + 1 => seqIds n ++ [(n + 1 : Int)]

/-- A package whose two modules both bind key 0, to implementations 1 and 2
respectively, in scan order. -/
def c1pkg : Pkg :=
  .mk (.ok []) true
    [.module (.ok [⟨"X", true, true, some 0, 1⟩]),
     .module (.ok [⟨"X", true, true, some 0, 2⟩])]

/-- A package whose first module raises a non-`ImportError` exception when
imported, followed by a healthy sibling binding key 5 to 7. -/
def c7pkg : Pkg :=
  .mk (.ok []) true
    [.module .uncaught,
     .module (.ok [⟨"S", true, true, some 5, 7⟩])]

/-- The same package with the broken module removed. -/
def c7pkgGood : Pkg :=
  .mk (.ok []) true
    [.module (.ok [⟨"S", true, true, some 5, 7⟩])]

/-- A resolution where key 0 fails with an exception class outside the
caught tuple and key 1 resolves fine. -/
def c8resolve : Nat → Resolve :=
  fun k => if k = 0 then Resolve.exc ExcKind.other else Resolve.ok 9

/-- A resolution where key 0 fails with a caught `TypeError` and key 1
resolves to instance 42. -/
def c8resolveW : Nat → Resolve :=
  fun k => if k = 0 then Resolve.exc ExcKind.typeError else Resolve.ok 42

/-- A view class with one routed method, inheriting directly from `APIView`. -/
def c2parent : ViewClass :=
  .sub .apiview "/a" [] [] [] [⟨"h", some ⟨"/p", [], [], ["GET"], none⟩⟩]

/-- A subclass of `c2parent` declaring no routes of its own. -/
def c2child : ViewClass :=
  .sub c2parent "/b" [] [] [] []

/-- A view with view-level tags and one dependency, and a route carrying its
own tag and dependency. -/
def c4view : ViewClass :=
  .sub .apiview "/v" ["vt"] [1] []
    [⟨"h", some ⟨"/p", ["rt"], [2], ["GET"], none⟩⟩]

/-- The `UserController` view type of the example resource. -/
def userController : ViewClass :=
  .sub .apiview "/user" [] [] []
    [⟨"__init__", none⟩,
     ⟨"list_users", some ⟨"/", [], [], ["GET", "OPTIONS"], none⟩⟩,
     ⟨"create_user", some ⟨"/", [], [], ["POST", "OPTIONS"], some 201⟩⟩,
     ⟨"get_user", some ⟨"/\x7buser_id\x7d", [], [], ["GET", "OPTIONS"], none⟩⟩,
     ⟨"update_user", some ⟨"/\x7buser_id\x7d", [], [], ["PUT", "OPTIONS"], none⟩⟩,
     ⟨"delete_user", some ⟨"/\x7buser_id\x7d", [], [], ["DELETE", "OPTIONS"], some 204⟩⟩]

/-- The registry row of `UserController.get_user`. -/
def c9row : Row :=
  ⟨"/\x7buser_id\x7d", [], [], ["GET", "OPTIONS"], none, "get_user"⟩

/-- A view whose `router_kwargs` carries a `"prefix"` entry next to a second
entry, which `register` lets override the computed scope. -/
def c9evil : ViewClass :=
  .sub .apiview "/user" [] [] [("prefix", "/evil"), ("tags", "x")]
    [⟨"get_user", some ⟨"/\x7buser_id\x7d", [], [], ["GET", "OPTIONS"], none⟩⟩]

end Fautil

namespace Fautil

/-!
Lemmas about the scanner, followed by the claim theorems.
-/

theorem dlookup_dinsertIfAbsent [DecidableEq κ] (d : List (κ × α)) (k k2 : κ) (v : α) :
    dlookup k2 (dinsertIfAbsent d k v)
      = if k = k2 then ((dlookup k d).elim (some v) some) else dlookup k2 d := by
  unfold dinsertIfAbsent
  by_cases hc : dcontains k d = true
  · rw [if_pos hc]
    by_cases h2 : k = k2
    · subst h2
      unfold dcontains at hc
      cases h : dlookup k d with
      | none => rw [h] at hc; simp at hc
      | some w => rw [if_pos rfl]; simp
    · rw [if_neg h2]
  · have hf : dcontains k d = false := by
      cases hb : dcontains k d with
      | false => rfl
      | true => exact absurd hb hc
    have hnone := dlookup_of_dcontains_false k d hf
    rw [if_neg hc, dlookup_append]
    by_cases h2 : k = k2
    · subst h2
      rw [hnone]
      simp [dlookup]
    · rw [if_neg h2]
      cases h : dlookup k2 d with
      | none => simp [dlookup, h2]
      | some w => simp

theorem collectGo_dlookup (ms : List Member) (acc : ScanDict) (k : Nat) :
    dlookup k (collectGo ms acc)
      = (dlookup k acc).elim
          ((ms.find? (fun m => memberActive m && (memberKey m == k))).map Member.selfKey)
          some := by
  induction ms generalizing acc with
  | nil => cases h : dlookup k acc <;> simp [collectGo, h]
  | cons m ms ih =>
    simp only [collectGo]
    by_cases ha : memberActive m = true
    · rw [if_pos ha, ih, dlookup_dinsertIfAbsent]
      by_cases hk : memberKey m = k
      · subst hk
        rw [if_pos rfl]
        have hfind : List.find?
            (fun m2 => memberActive m2 && (memberKey m2 == memberKey m)) (m :: ms)
            = some m := by
          simp [List.find?, ha]
        rw [hfind]
        cases h : dlookup (memberKey m) acc with
        | none => simp
        | some w => simp
      · rw [if_neg hk]
        have hbeq : (memberKey m == k) = false := by
          cases hb : memberKey m == k with
          | false => rfl
          | true => exact absurd (eq_of_beq hb) hk
        have hfind : List.find?
            (fun m2 => memberActive m2 && (memberKey m2 == k)) (m :: ms)
            = List.find? (fun m2 => memberActive m2 && (memberKey m2 == k)) ms := by
          simp [List.find?, ha, hbeq]
        rw [hfind]
    · have haf : memberActive m = false := by
        cases hb : memberActive m with
        | false => rfl
        | true => exact absurd hb ha
      rw [if_neg ha, ih]
      have hfind : List.find?
          (fun m2 => memberActive m2 && (memberKey m2 == k)) (m :: ms)
          = List.find? (fun m2 => memberActive m2 && (memberKey m2 == k)) ms := by
        simp [List.find?, haf]
      rw [hfind]

theorem collectMembers_dlookup (ms : List Member) (k : Nat) :
    dlookup k (collectMembers ms)
      = (ms.find? (fun m => memberActive m && (memberKey m == k))).map Member.selfKey := by
  rw [collectMembers, collectGo_dlookup]
  rfl

theorem collectGo_nodup (ms : List Member) : ∀ acc : ScanDict,
    NodupKeys acc → NodupKeys (collectGo ms acc) := by
  induction ms with
  | nil => intro acc h; exact h
  | cons m ms ih =>
    intro acc h
    simp only [collectGo]
    by_cases ha : memberActive m = true
    · rw [if_pos ha]
      exact ih _ (keys_dinsertIfAbsent _ _ _ h)
    · rw [if_neg ha]
      exact ih _ h

theorem collectMembers_nodup (ms : List Member) : NodupKeys (collectMembers ms) :=
  collectGo_nodup ms [] (by simp [NodupKeys])

theorem scanItems_nodup (items : List PkgItem) : ∀ (acc d : ScanDict),
    NodupKeys acc → scanItems items acc = Except.ok d → NodupKeys d := by
  induction items with
  | nil =>
    intro acc d h he
    simp only [scanItems, Except.ok.injEq] at he
    subst he
    exact h
  | cons it rest ih =>
    intro acc d h he
    cases it with
    | module m =>
      simp only [scanItems] at he
      cases hm : scanModuleEx m with
      | ok d2 =>
        rw [hm] at he
        exact ih _ _ (keys_dupdate _ _ h) he
      | error e =>
        rw [hm] at he
        exact absurd he (by simp)
    | subpkg p =>
      simp only [scanItems] at he
      cases hp : scanPackageEx p with
      | ok d2 =>
        rw [hp] at he
        exact ih _ _ (keys_dupdate _ _ h) he
      | error e =>
        rw [hp] at he
        exact absurd he (by simp)

theorem scanPackageEx_nodup (p : Pkg) : ∀ d : ScanDict,
    scanPackageEx p = Except.ok d → NodupKeys d := by
  intro d h
  cases p with
  | mk si hf items =>
    cases si with
    | ok ms =>
      simp only [scanPackageEx] at h
      cases hs : scanItems (if hf = true then items else []) (collectMembers ms) with
      | ok d2 =>
        rw [hs] at h
        simp only [Except.ok.injEq] at h
        subst h
        exact scanItems_nodup _ _ _ (collectMembers_nodup ms) hs
      | error e =>
        rw [hs] at h
        cases e with
        | scanCaught =>
          simp only [Except.ok.injEq] at h
          subst h
          simp [NodupKeys]
        | uncaught => exact absurd h (by simp)
    | importError =>
      simp only [scanPackageEx, Except.ok.injEq] at h
      subst h
      simp [NodupKeys]
    | scanCaught =>
      simp only [scanPackageEx, Except.ok.injEq] at h
      subst h
      simp [NodupKeys]
    | uncaught =>
      simp only [scanPackageEx] at h
      exact absurd h (by simp)

end Fautil

namespace Fautil

/-- Claim C1, counterexample: in `c1pkg` the first implementation seen for
binding key 0 in scan order is 1 (first module), yet the scan result maps
key 0 to 2, the implementation from the later module — `dict.update` lets
the later module win, so the map does not hold the first implementation
seen. -/
theorem scan_first_wins_cex :
    scanPackageEx c1pkg = Except.ok [(0, 2)]
    ∧ dlookup 0 [(0, 2)] = some 2
    ∧ (2 : Nat) ≠ 1 := by
  refine ⟨?_, by decide, by decide⟩
  simp [c1pkg, scanPackageEx, scanItems, scanModuleEx, collectMembers, collectGo,
    memberActive, memberKey, dinsertIfAbsent, dcontains, dlookup, dupdate, dset, dreplace]

/-- Claim C1, amended: a scan result has exactly one entry per binding key,
but precedence is layered: within one module the first member in
enumeration order wins (`find?` semantics of `collectMembers`), while
across dictionaries merged by `dict.update` the updating (later-scanned)
dictionary's entry replaces the earlier one. -/
theorem scan_merge_amended :
    (∀ (p : Pkg) (d : ScanDict), scanPackageEx p = Except.ok d → NodupKeys d)
    ∧ (∀ (ms : List Member) (k : Nat),
        dlookup k (collectMembers ms)
          = (ms.find? (fun m => memberActive m && (memberKey m == k))).map Member.selfKey)
    ∧ (∀ (d1 d2 : ScanDict) (k : Nat), NodupKeys d2 →
        dlookup k (dupdate d1 d2) = ((dlookup k d2).elim (dlookup k d1) some)) :=
  ⟨fun p d h => scanPackageEx_nodup p d h,
   fun ms k => collectMembers_dlookup ms k,
   fun d1 d2 k h => dlookup_dupdate d1 d2 k h⟩

/-- Witness for `scan_merge_amended` at concrete inputs: the scan of
`c1pkg` yields a duplicate-free key list; a module with two members for key
0 keeps the first (implementation 1); an update of `[(0, 1)]` with
`[(0, 2)]` yields 2 for key 0. -/
theorem scan_merge_amended_witness :
    NodupKeys [((0 : Nat), (2 : Nat))]
    ∧ dlookup 0 (collectMembers
        [⟨"A", true, true, some 0, 1⟩, ⟨"B", true, true, some 0, 3⟩]) = some 1
    ∧ dlookup 0 (dupdate [(0, 1)] [(0, 2)]) = some 2 := by
  refine ⟨?_, ?_, ?_⟩
  · exact scan_merge_amended.1 c1pkg [(0, 2)] scan_first_wins_cex.1
  · rw [scan_merge_amended.2.1 [⟨"A", true, true, some 0, 1⟩, ⟨"B", true, true, some 0, 3⟩] 0]
    decide
  · rw [scan_merge_amended.2.2 [(0, 1)] [(0, 2)] 0 (by decide)]
    decide

end Fautil

namespace Fautil

theorem scanItems_importError_skip (l1 : List PkgItem) : ∀ (l2 : List PkgItem) (acc : ScanDict),
    scanItems (l1 ++ PkgItem.module ImportResult.importError :: l2) acc
      = scanItems (l1 ++ PkgItem.module (ImportResult.ok []) :: l2) acc := by
  induction l1 with
  | nil =>
    intro l2 acc
    simp only [List.nil_append, scanItems, scanModuleEx, collectMembers, collectGo]
  | cons it rest ih =>
    intro l2 acc
    simp only [List.cons_append]
    cases it with
    | module m =>
      simp only [scanItems]
      cases hm : scanModuleEx m with
      | ok d2 => simp [ih]
      | error e => simp
    | subpkg p =>
      simp only [scanItems]
      cases hp : scanPackageEx p with
      | ok d2 => simp [ih]
      | error e => simp

/-- Claim C7, amended: a submodule whose import fails with an `ImportError`
is logged and skipped — the scan result is exactly the result of scanning
the same tree with that module empty, so siblings' bindings all survive.
(Other exception classes are not contained this way; see the
counterexample.) -/
theorem scan_import_error_skipped (si : ImportResult) (hf : Bool) (l1 l2 : List PkgItem) :
    scanPackageEx (Pkg.mk si hf (l1 ++ PkgItem.module ImportResult.importError :: l2))
      = scanPackageEx (Pkg.mk si hf (l1 ++ PkgItem.module (ImportResult.ok []) :: l2)) := by
  cases si with
  | ok ms =>
    simp only [scanPackageEx]
    cases hf with
    | true => rw [if_pos rfl, if_pos rfl, scanItems_importError_skip]
    | false => rfl
  | importError => simp only [scanPackageEx]
  | scanCaught => simp only [scanPackageEx]
  | uncaught => simp only [scanPackageEx]

/-- Claim C7, counterexample: in `c7pkg` the first submodule raises a
non-`ImportError` exception on import; the whole scan aborts with that
exception, so the sibling's binding of key 5 (which the same tree without
the broken module does deliver) never appears in any scan result. -/
theorem scan_broken_module_cex :
    scanPackageEx c7pkg = Except.error PyErr.uncaught
    ∧ scanPackageEx c7pkgGood = Except.ok [(5, 7)] := by
  constructor <;>
    simp [c7pkg, c7pkgGood, scanPackageEx, scanItems, scanModuleEx, collectMembers,
      collectGo, memberActive, memberKey, dinsertIfAbsent, dcontains, dlookup,
      dupdate, dset, dreplace]

end Fautil

namespace Fautil

theorem countP_insertByName (p : FuncDef → Bool) (f : FuncDef) (l : List FuncDef) :
    (insertByName f l).countP p = (if p f then 1 else 0) + l.countP p := by
  induction l with
  | nil => simp [insertByName, List.countP_cons]
  | cons g gs ih =>
    simp only [insertByName]
    by_cases h : strLt f.name g.name = true
    · rw [if_pos h]
      simp only [List.countP_cons]
      by_cases hf : p f = true <;> by_cases hg : p g = true <;> (simp [hf, hg]; try omega)
    · rw [if_neg h]
      simp only [List.countP_cons, ih]
      by_cases hf : p f = true <;> by_cases hg : p g = true <;> (simp [hf, hg]; try omega)

theorem countP_sortByName (p : FuncDef → Bool) (l : List FuncDef) :
    (sortByName l).countP p = l.countP p := by
  induction l with
  | nil => rfl
  | cons f fs ih =>
    show (insertByName f (sortByName fs)).countP p = _
    rw [countP_insertByName, ih, List.countP_cons]
    by_cases hf : p f = true <;> (simp [hf]; try omega)

theorem length_filterMap_isSome (g : FuncDef → Option Row) (l : List FuncDef) :
    (l.filterMap g).length = l.countP (fun f => (g f).isSome) := by
  induction l with
  | nil => rfl
  | cons f fs ih =>
    cases h : g f with
    | none => simp [List.filterMap_cons, h, ih, List.countP_cons]
    | some r => simp [List.filterMap_cons, h, ih, List.countP_cons]

theorem countP_filter_base (own : List FuncDef) (base : List FuncDef)
    (hbase : ∀ f ∈ base, f.routeInfo = none) :
    (base.filter (fun g => own.all (fun f => f.name != g.name))).countP
      (fun f => f.routeInfo.isSome) = 0 := by
  rw [List.countP_eq_zero]
  intro f hf
  have hmem := (List.mem_filter.mp hf).1
  rw [hbase f hmem]
  simp

theorem routesOf_length (parent : ViewClass) (p : String) (t : List String)
    (d : List Nat) (rk : List (String × String)) (own : List FuncDef) :
    (routesOf (ViewClass.sub parent p t d rk own)).length
      = (visibleFuncs (ViewClass.sub parent p t d rk own)).countP
          (fun f => f.routeInfo.isSome) := by
  simp only [routesOf]
  rw [length_filterMap_isSome]
  rw [List.countP_congr]
  · exact countP_sortByName _ _
  · intro f _
    cases h : f.routeInfo <;> simp [h]

end Fautil

namespace Fautil

/-- Claim C2, counterexample: `c2child` subclasses `c2parent` (itself a view
with one routed method) and declares 0 routes of its own, yet its registry
has 1 row — `inspect.getmembers` walks the whole method resolution order, so
the inherited routed method is registered again on the subclass instead of
being excluded. -/
theorem registry_inherited_cex :
    (routesOf c2child).length = 1
    ∧ ((([] : List FuncDef)).countP (fun f => f.routeInfo.isSome)) = 0
    ∧ (1 : Nat) ≠ 0 := by
  refine ⟨?_, rfl, by decide⟩
  decide

/-- Claim C2, amended: for a view type inheriting directly from `APIView`
the registry has exactly one row per routed method declared on the type
itself (`APIView`'s own methods carry no route metadata), but for a deeper
subclass the rows of inherited, non-overridden routed methods are counted
again: a subclass declaring no routes still gets all of its parent's. -/
theorem registry_length_amended :
    (∀ (p : String) (t : List String) (d : List Nat) (rk : List (String × String))
        (own : List FuncDef),
      (routesOf (ViewClass.sub ViewClass.apiview p t d rk own)).length
        = own.countP (fun f => f.routeInfo.isSome))
    ∧ (∀ (p : String) (t : List String) (d : List Nat) (rk : List (String × String))
        (own : List FuncDef) (p2 : String) (t2 : List String) (d2 : List Nat)
        (rk2 : List (String × String)),
      (routesOf (ViewClass.sub (ViewClass.sub ViewClass.apiview p t d rk own) p2 t2 d2 rk2 [])).length
        = own.countP (fun f => f.routeInfo.isSome)) := by
  have hbase : ∀ f ∈ apiviewFuncs, f.routeInfo = none := by decide
  constructor
  · intro p t d rk own
    rw [routesOf_length]
    simp only [visibleFuncs, List.countP_append]
    rw [countP_filter_base own apiviewFuncs hbase]
    omega
  · intro p t d rk own p2 t2 d2 rk2
    rw [routesOf_length]
    show (([] : List FuncDef) ++ (visibleFuncs (ViewClass.sub ViewClass.apiview p t d rk own)).filter
        (fun g => ([] : List FuncDef).all (fun f => f.name != g.name))).countP
        (fun f => f.routeInfo.isSome) = _
    simp only [List.nil_append, List.all_nil, List.filter_true]
    simp only [visibleFuncs, List.countP_append]
    rw [countP_filter_base own apiviewFuncs hbase]
    omega

end Fautil

namespace Fautil

/-- Claim C4, counterexample: in `c4view` the route carries the non-empty
dependency list `[2]` and the view carries `[1]`; the materialised row's
dependencies are the concatenation `[2, 1]`, not the route-level `[2]` the
override rule would give — dependencies are summed, not overridden. -/
theorem route_deps_override_cex :
    (routesOf c4view).map (fun r => r.dependencies) = [[2, 1]]
    ∧ ([2, 1] : List Nat) ≠ [2] := by
  refine ⟨?_, by decide⟩
  decide

/-- Claim C4, amended: every registry row of a view type comes from a
visible routed function, its tags follow the override rule
(`route_info.tags or cls.tags`), but its dependencies are the route-level
list concatenated with the view-level list
(`route_info.dependencies + cls.dependencies`). -/
theorem route_merge_amended (parent : ViewClass) (p : String) (t : List String)
    (d : List Nat) (rk : List (String × String)) (own : List FuncDef) (r : Row) :
    r ∈ routesOf (ViewClass.sub parent p t d rk own) →
    ∃ f : FuncDef, ∃ ri : RouteInfo,
      f ∈ sortByName (visibleFuncs (ViewClass.sub parent p t d rk own))
      ∧ f.routeInfo = some ri
      ∧ r.path = ri.path
      ∧ r.tags = (if ri.tags = [] then t else ri.tags)
      ∧ r.dependencies = ri.dependencies ++ d := by
  intro hr
  simp only [routesOf] at hr
  rw [List.mem_filterMap] at hr
  obtain ⟨f, hf, hmap⟩ := hr
  cases hri : f.routeInfo with
  | none => rw [hri] at hmap; exact absurd hmap (by simp)
  | some ri =>
    rw [hri] at hmap
    simp only [Option.map_some'] at hmap
    have hrow : mkRow t d f.name ri = r := Option.some.inj hmap
    subst hrow
    exact ⟨f, ri, hf, hri, rfl, rfl, rfl⟩

/-- Witness for `route_merge_amended`: the single row of `c4view` traces
back to its routed function `h`, with tags `["rt"]` (route-level wins, being
non-empty) and dependencies `[2] ++ [1]`. -/
theorem route_merge_amended_witness :
    ∃ f : FuncDef, ∃ ri : RouteInfo,
      f ∈ sortByName (visibleFuncs (ViewClass.sub ViewClass.apiview "/v" ["vt"] [1] []
            [⟨"h", some ⟨"/p", ["rt"], [2], ["GET"], none⟩⟩]))
      ∧ f.routeInfo = some ri
      ∧ (⟨"/p", ["rt"], [2, 1], ["GET"], none, "h"⟩ : Row).path = ri.path
      ∧ (⟨"/p", ["rt"], [2, 1], ["GET"], none, "h"⟩ : Row).tags
          = (if ri.tags = [] then ["vt"] else ri.tags)
      ∧ (⟨"/p", ["rt"], [2, 1], ["GET"], none, "h"⟩ : Row).dependencies
          = ri.dependencies ++ [1] :=
  route_merge_amended ViewClass.apiview "/v" ["vt"] [1] []
    [⟨"h", some ⟨"/p", ["rt"], [2], ["GET"], none⟩⟩]
    ⟨"/p", ["rt"], [2, 1], ["GET"], none, "h"⟩ (by decide)

end Fautil

namespace Fautil

/-- Claim C9, counterexample: `c9evil` mounts with `prefix="/api"` and
`base_path="/user"`, yet its route lands at `/evil/{user_id}` — a
`router_kwargs` holding a `"prefix"` entry next to at least one other entry
overrides the computed `prefix + base_path` scope. -/
theorem register_kwargs_cex :
    registerView c9evil "/api"
      = [("/evil/\x7buser_id\x7d", ["GET", "OPTIONS"], "get_user")]
    ∧ ("/evil/\x7buser_id\x7d" : String) ≠ "/api/user/\x7buser_id\x7d" := by
  refine ⟨?_, by decide⟩
  decide

/-- Claim C9, amended: whenever the view's `router_kwargs` does not override
the scope (it has at most one entry, or no `"prefix"` entry — in particular
the default empty `router_kwargs`), `register` mounts every registry row at
`prefix + base_path + row.path`. -/
theorem register_path_amended (cls : ViewClass) (pre : String) :
    ((viewRouterKwargs cls).length ≤ 1 ∨ dlookup "prefix" (viewRouterKwargs cls) = none) →
    ∀ r : Row, r ∈ routesOf cls →
      (pre ++ viewPath cls ++ r.path, r.methods, r.endpointName) ∈ registerView cls pre := by
  intro h r hr
  unfold registerView
  have heff : (if (viewRouterKwargs cls).length > 1
        then (dlookup "prefix" (viewRouterKwargs cls)).getD (pre ++ viewPath cls)
        else pre ++ viewPath cls) = pre ++ viewPath cls := by
    rcases h with h | h
    · rw [if_neg (by omega)]
    · by_cases hl : (viewRouterKwargs cls).length > 1
      · rw [if_pos hl, h]
        rfl
      · rw [if_neg hl]
  simp only []
  rw [heff, List.mem_map]
  exact ⟨r, hr, rfl⟩

/-- Witness for `register_path_amended`: the `UserController` view mounted
with `prefix="/api"` serves its `get_user` row at `/api/user/{user_id}`. -/
theorem register_path_amended_witness :
    ("/api" ++ viewPath userController ++ c9row.path, c9row.methods, c9row.endpointName)
      ∈ registerView userController "/api" :=
  register_path_amended userController "/api" (Or.inl (by decide)) c9row (by decide)

end Fautil

namespace Fautil

/-- Claim C3, code bug: on the seed store no user has id 9999, yet
`PUT /api/user/9999` does not produce the documented 404 — the DAO raises
`ValueError("User not found")`, the service and controller never catch it,
so the request dies with an unhandled exception (HTTP 500), contradicting
the controller's own 404 branch and the repository's
`test_update_nonexistent_user`. -/
theorem put_missing_user_bug :
    UserController.update_user initUsers 9999 "nobody" = (UserResp.unhandled, initUsers)
    ∧ initUsers.find? (fun u => u.id == 9999) = none
    ∧ UserController.update_user initUsers 9999 "nobody"
        ≠ (UserResp.httpError 404 "User not found", initUsers) := by
  refine ⟨?_, by decide, ?_⟩
  · decide
  · decide

/-- Claim C5, code bug: no stored user has id 0, so the claim requires a 404
with detail "User not found"; the positional lookup `users[user_id - 1]`
turns id 0 into Python index `-1` and returns the LAST stored user
(id 10, "Jill Doe") with status 200. -/
theorem get_user_positional_bug :
    UserController.get_user initUsers 0 = UserResp.ok 200 ⟨10, "Jill Doe"⟩
    ∧ initUsers.find? (fun u => u.id == 0) = none := by
  refine ⟨?_, by decide⟩
  decide

/-- Claim C6, counterexample: on a store holding only the user with id 2,
`create_user` assigns `len(users) + 1 = 2` — a duplicate of the existing id
— not `max + 1 = 3` as claimed. -/
theorem create_user_maxid_cex :
    (UserDao.create_user [⟨2, "B"⟩] "A").2.id = 2
    ∧ storeMax [⟨2, "B"⟩] + 1 = 3
    ∧ (2 : Int) ≠ 3 := by
  refine ⟨by decide, by decide, by decide⟩

theorem seqIds_foldl_max (n : Nat) :
    (seqIds n).foldl (fun m i => max m i) 0 = (n : Int) := by
  induction n with
  | zero => rfl
  | succ n ih =>
    simp only [seqIds, List.foldl_append, List.foldl_cons, List.foldl_nil]
    rw [ih]
    have h1 : max (n : Int) ((n : Int) + 1) = (n : Int) + 1 := max_eq_right (by omega)
    rw [h1]
    omega

/-- Claim C6, amended: `create_user` appends a user whose id is one greater
than the NUMBER of stored users; when the stored ids are exactly `1..n` (as
in any store never touched by a deletion) this coincides with one greater
than the prior maximum id. -/
theorem create_user_amended (users : List User) (name : String) :
    UserDao.create_user users name
      = (users ++ [⟨(users.length : Int) + 1, name⟩], ⟨(users.length : Int) + 1, name⟩)
    ∧ (users.map (fun u => u.id) = seqIds users.length →
        (UserDao.create_user users name).2.id = storeMax users + 1) := by
  constructor
  · rfl
  · intro hids
    have hmax : storeMax users = (users.length : Int) := by
      have h1 : storeMax users = (users.map (fun u => u.id)).foldl (fun m i => max m i) 0 := by
        unfold storeMax
        rw [List.foldl_map]
      rw [h1, hids]
      exact seqIds_foldl_max users.length
    rw [hmax]
    rfl

/-- Witness for `create_user_amended`: the seed store has ids exactly 1..10,
and creating "Alice" there assigns id `storeMax + 1 = 11`. -/
theorem create_user_amended_witness :
    (UserDao.create_user initUsers "Alice").2.id = storeMax initUsers + 1 :=
  (create_user_amended initUsers "Alice").2 (by decide)

end Fautil

namespace Fautil

theorem getAllBindingsGo_ok (resolve : Nat → Resolve) (ks : List Nat) :
    ∀ acc : ScanDict,
    (∀ k, k ∈ ks → caughtFail (resolve k) = true) →
    ∃ d, getAllBindingsGo resolve ks acc = Except.ok d
      ∧ ∀ k, dlookup k d
          = if k ∈ ks ∧ (resOk (resolve k)).isSome then resOk (resolve k) else dlookup k acc := by
  induction ks with
  | nil =>
    intro acc _
    refine ⟨acc, rfl, ?_⟩
    intro k
    simp
  | cons k0 ks ih =>
    intro acc hca
    have hks : ∀ k, k ∈ ks → caughtFail (resolve k) = true :=
      fun k hk => hca k (List.mem_cons_of_mem k0 hk)
    cases hr : resolve k0 with
    | ok v =>
      obtain ⟨d, hd, hl⟩ := ih (dset acc k0 v) hks
      refine ⟨d, ?_, ?_⟩
      · simp only [getAllBindingsGo, hr]
        exact hd
      · intro k
        rw [hl k, dlookup_dset]
        by_cases hmem : k ∈ ks ∧ (resOk (resolve k)).isSome
        · rw [if_pos hmem, if_pos ⟨List.mem_cons_of_mem k0 hmem.1, hmem.2⟩]
        · rw [if_neg hmem]
          by_cases hk0 : k0 = k
          · subst hk0
            rw [if_pos rfl, if_pos ⟨List.mem_cons_self k0 ks, by rw [hr]; rfl⟩, hr]
            rfl
          · rw [if_neg hk0, if_neg]
            intro hand
            cases List.mem_cons.mp hand.1 with
            | inl h => exact hk0 h.symm
            | inr h => exact hmem ⟨h, hand.2⟩
    | exc kind =>
      have hcaught : caughtKind kind = true := by
        have := hca k0 (List.mem_cons_self k0 ks)
        rw [hr] at this
        exact this
      obtain ⟨d, hd, hl⟩ := ih acc hks
      refine ⟨d, ?_, ?_⟩
      · simp only [getAllBindingsGo, hr, hcaught, if_pos]
        exact hd
      · intro k
        rw [hl k]
        by_cases hmem : k ∈ ks ∧ (resOk (resolve k)).isSome
        · rw [if_pos hmem, if_pos ⟨List.mem_cons_of_mem k0 hmem.1, hmem.2⟩]
        · rw [if_neg hmem, if_neg]
          intro hand
          cases List.mem_cons.mp hand.1 with
          | inl h =>
            subst h
            rw [hr] at hand
            exact absurd hand.2 (by simp [resOk])
          | inr h => exact hmem ⟨h, hand.2⟩

/-- Claim C8, counterexample: with binding key 0 failing to resolve with an
exception class outside `(KeyError, TypeError, ValueError, AttributeError)`
and key 1 resolving fine, `get_all_bindings` does not return a map at all:
the exception propagates to the caller and even the resolvable key is
lost. -/
theorem resolve_all_propagates_cex :
    get_all_bindings [0, 1] c8resolve = Except.error ()
    ∧ c8resolve 1 = Resolve.ok 9 := by
  constructor
  · rfl
  · rfl

/-- Claim C8, amended: when every registered key either resolves or fails
with one of the four caught exception classes, `get_all_bindings` returns a
map holding exactly the keys whose resolution succeeds, each bound to its
resolved instance; a failure of any other class propagates (see the
counterexample). -/
theorem resolve_all_amended (registry : List Nat) (resolve : Nat → Resolve) :
    (∀ k, k ∈ registry → caughtFail (resolve k) = true) →
    ∃ d, get_all_bindings registry resolve = Except.ok d
      ∧ ∀ k v, dlookup k d = some v ↔ (k ∈ registry ∧ resolve k = Resolve.ok v) := by
  intro hca
  obtain ⟨d, hd, hl⟩ := getAllBindingsGo_ok resolve registry [] hca
  refine ⟨d, hd, ?_⟩
  intro k v
  rw [hl k]
  constructor
  · intro h
    by_cases hmem : k ∈ registry ∧ (resOk (resolve k)).isSome
    · rw [if_pos hmem] at h
      refine ⟨hmem.1, ?_⟩
      cases hr : resolve k with
      | ok w =>
        rw [hr] at h
        simp only [resOk] at h
        rw [← Option.some.inj h]
      | exc kind =>
        rw [hr] at h
        exact absurd h (by simp [resOk])
    · rw [if_neg hmem] at h
      exact absurd h (by simp [dlookup])
  · intro ⟨hmem, hok⟩
    rw [if_pos ⟨hmem, by rw [hok]; rfl⟩, hok]
    rfl

/-- Witness for `resolve_all_amended`: with key 0 failing with a caught
`TypeError` and key 1 resolving to 42, the helper returns a map whose only
entry is key 1 bound to 42. -/
theorem resolve_all_amended_witness :
    ∃ d, get_all_bindings [0, 1] c8resolveW = Except.ok d
      ∧ ∀ k v, dlookup k d = some v ↔ (k ∈ [0, 1] ∧ c8resolveW k = Resolve.ok v) :=
  resolve_all_amended [0, 1] c8resolveW (by decide)

end Fautil

namespace Fautil

theorem getD_concat_length (l : List CtxDict) (x : CtxDict) :
    (l ++ [x]).getD l.length [] = x := by
  simp [List.getD, List.getElem?_concat_length]

theorem getD_append_left (l l2 : List CtxDict) (a : Nat) (h : a < l.length) :
    (l ++ l2).getD a [] = l.getD a [] := by
  simp [List.getD, List.getElem?_append_left h]

/-- Claim C10: `RequestContext.set` installs a fresh copy of the stored
dictionary extended with the new pair: afterwards `get` returns the new
value at the written key, every other key reads as before, every dictionary
object allocated earlier (including any copy handed out by `get_all`) is
bit-for-bit untouched, and `get_all` returns a fresh object distinct from
the stored one, holding the current entries — so callers can never mutate
the stored context through it. -/
theorem context_set_frame (s : CtxState) (k : String) (v : Nat) :
    s.cur < s.heap.length →
    RequestContext.get (RequestContext.set s k v) k = some v
    ∧ (∀ k2, k2 ≠ k → RequestContext.get (RequestContext.set s k v) k2 = RequestContext.get s k2)
    ∧ (∀ a, a < s.heap.length → (RequestContext.set s k v).heap.get? a = s.heap.get? a)
    ∧ (RequestContext.get_all s).2 ≠ s.cur
    ∧ (RequestContext.get_all s).1.heap.getD (RequestContext.get_all s).2 [] = currentDict s := by
  intro hcur
  have hcd : currentDict (RequestContext.set s k v) = dset (currentDict s) k v := by
    unfold RequestContext.set currentDict
    exact getD_concat_length s.heap (dset (s.heap.getD s.cur []) k v)
  refine ⟨?_, ?_, ?_, ?_, ?_⟩
  · unfold RequestContext.get
    rw [hcd, dlookup_dset, if_pos rfl]
  · intro k2 hk2
    unfold RequestContext.get
    rw [hcd, dlookup_dset, if_neg (fun h => hk2 h.symm)]
  · intro a ha
    unfold RequestContext.set
    simp only [List.get?_eq_getElem?]
    exact List.getElem?_append_left ha
  · unfold RequestContext.get_all
    omega
  · unfold RequestContext.get_all
    exact getD_concat_length s.heap (currentDict s)

/-- Witness for `context_set_frame` on the state whose only dictionary is
`{"a": 1}`: after `set "b" 2`, key `"b"` reads 2, key `"a"` still reads 1,
the original dictionary object at address 0 is untouched, and `get_all`
hands back a fresh address. -/
theorem context_set_frame_witness :
    RequestContext.get (RequestContext.set ⟨[[("a", 1)]], 0⟩ "b" 2) "b" = some 2
    ∧ RequestContext.get (RequestContext.set ⟨[[("a", 1)]], 0⟩ "b" 2) "a"
        = RequestContext.get ⟨[[("a", 1)]], 0⟩ "a"
    ∧ (RequestContext.set ⟨[[("a", 1)]], 0⟩ "b" 2).heap.get? 0
        = (⟨[[("a", 1)]], 0⟩ : CtxState).heap.get? 0
    ∧ (RequestContext.get_all ⟨[[("a", 1)]], 0⟩).2 ≠ 0 := by
  have h := context_set_frame ⟨[[("a", 1)]], 0⟩ "b" 2 (by decide)
  exact ⟨h.1, h.2.1 "a" (by decide), h.2.2.1 0 (by decide), h.2.2.2.1⟩

end Fautil
